import Mathlib

/-!
Verification development for the user-project watcher (package `auth`) and the
simple route-allocation plugin (package `simple`) of bparees/openshift-apiserver.

The watcher implementation itself (NewUserProjectWatcher, GroupMembershipChanged,
Watch) is not among the provided source files; only its test file is.  The
watcher definitions below are therefore modelled from the specification's
description of the visibility diff engine (spec sections 3, 4.1, 4.2, 4.4),
constrained by the shapes visible at the call sites in the test file.  The
route-allocation definitions are translated directly from
plugins/route/allocation/simple/plugin.go.
-/

namespace auth

/-- A converted project object (projectapi.Project); only the name is relevant
to the watcher's behaviour. -/
structure Project where
  name : String
deriving DecidableEq, Repr

/-- A namespace object from the namespace cache (corev1.Namespace); only the
name is relevant here. -/
structure Nspace where
  name : String
deriving DecidableEq, Repr

/-- Modelled from the spec: conversion of a namespace into its project
representation (projectutil conversion); it preserves the name. -/
def ConvertNamespaceFromExternal (ns : Nspace) : Project :=
  { name := ns.name }

/-- The kind of a watch event (k8s watch.EventType). -/
inductive EventType where
  | Added
  | Modified
  | Deleted
  | Error
deriving DecidableEq, Repr

/-- A watch event: a kind plus the carried project object (none for Error). -/
structure Event where
  type : EventType
  object : Option Project
deriving DecidableEq, Repr

/-- Modelled from the spec: watcher scope, a closed tagged variant —
wildcard visibility or a fixed namespace set (spec section 3). -/
inductive Scope where
  | Wildcard
  | FixedSet (names : List String)
deriving DecidableEq, Repr

/-- Whether the scope allows considering the given namespace name. -/
def Scope.allows : Scope → String → Bool
  | Scope.Wildcard, _ => true
  | Scope.FixedSet names, n => names.contains n

/-- Modelled from the spec: the immutable configuration of a user project
watcher — identity (principal name and groups), scope, the namespace cache
contents (point lookup by name), the selection predicate over converted
projects, and the internal queue capacity (spec sections 3 and 4.1). -/
structure userProjectWatcher where
  username : String
  groups : List String
  scope : Scope
  namespaces : List Nspace
  predicate : Project → Bool
  capacity : Nat

/-- Point lookup in the namespace cache: `get(name) -> Namespace|absent`. -/
def userProjectWatcher.lookupNs (w : userProjectWatcher) (n : String) : Option Nspace :=
  w.namespaces.find? (fun ns => ns.name == n)

/-- Whether the identity is granted access by a delivered membership snapshot:
the principal name is in the users set or the identity's groups intersect the
delivered groups set (spec section 4.1 step 1). -/
def hasAccess (w : userProjectWatcher) (users groups : List String) : Bool :=
  users.contains w.username || w.groups.any (fun g => groups.contains g)

/-- Modelled from the spec: the mutable state of a watcher — the KnownState
mapping (namespace name to last-emitted representation), the internal bounded
queue, the events already forwarded by the run loop to the output stream, the
number of RemoveWatcher calls made on the membership cache, and the recorded
terminal error (spec sections 3, 4.1, 4.2). -/
structure WatcherState where
  knownProjects : List (String × Project)
  queue : List Event
  outgoing : List Event
  removedCount : Nat
  cacheError : Option String
deriving DecidableEq, Repr

/-- Lookup of a namespace name in the KnownState association list. -/
def lookupKnown : List (String × Project) → String → Option Project
  | [], _ => none
  | kv :: rest, n => if kv.1 = n then some kv.2 else lookupKnown rest n

/-- Removal of a namespace name from the KnownState association list. -/
def eraseKnown : List (String × Project) → String → List (String × Project)
  | [], _ => []
  | kv :: rest, n => if kv.1 = n then eraseKnown rest n else kv :: eraseKnown rest n

/-- The state of a watcher before any input: empty KnownState, empty queues,
no removal performed, no terminal error. -/
def initialState : WatcherState :=
  { knownProjects := [], queue := [], outgoing := [], removedCount := 0, cacheError := none }

/-- Modelled from the spec: watcher construction seeds KnownState from the
membership cache's list() snapshot (spec section 4.4).  The constructor's body
is absent from the sources; its only call site (test file, line 44) uses the
single return value of NewUserProjectWatcher directly inside a multi-value
return, so the constructor cannot return an error — on a failed list() it
still yields a watcher, with an empty seed. -/
def NewUserProjectWatcher (listResult : Except String (List Nspace)) : WatcherState :=
  match listResult with
  | Except.ok nss =>
    { initialState with
        knownProjects := nss.map (fun ns => (ns.name, ConvertNamespaceFromExternal ns)) }
  | Except.error _ => initialState

/-- Modelled from the spec: the bounded, non-blocking enqueue attempt with a
short grace window (spec section 4.1).  Acceptance is modelled as the queue
having room; on overflow the watcher calls the membership cache's
RemoveWatcher hook and records the terminal error.  Removal is exactly-once
over the lifetime (spec section 4.4: idempotent against double-invocation),
modelled by the guard on an already-recorded terminal error. -/
def tryEnqueue (w : userProjectWatcher) (s : WatcherState) (e : Event) : WatcherState :=
  match s.cacheError with
  | some _ => s
  | none =>
    if s.queue.length < w.capacity then
      { s with queue := s.queue ++ [e] }
    else
      { s with removedCount := s.removedCount + 1, cacheError := some "notification timeout" }

/-- Modelled from the spec: the visibility diff engine, entry point
onMembershipChanged / GroupMembershipChanged (spec section 4.1).  The two sets
are the full current authorized users and groups for the namespace.  Cases:
visible and already known — no-op; visible and not known — namespace cache
lookup, convert, predicate filter, insert into KnownState and enqueue Added
(lookup miss or predicate failure is a silent no-op); not visible and known —
remove from KnownState and enqueue Deleted with the last-known representation;
not visible and not known — no-op.  KnownState is updated before the enqueue
attempt, whose failure is handled by `tryEnqueue`. -/
def GroupMembershipChanged (w : userProjectWatcher) (s : WatcherState)
    (namespaceName : String) (users groups : List String) : WatcherState :=
  match w.scope.allows namespaceName && hasAccess w users groups,
        lookupKnown s.knownProjects namespaceName with
  | true, some _ => s
  | true, none =>
    match w.lookupNs namespaceName with
    | none => s
    | some ns =>
      if w.predicate (ConvertNamespaceFromExternal ns) then
        tryEnqueue w
          { s with knownProjects :=
              (namespaceName, ConvertNamespaceFromExternal ns) :: s.knownProjects }
          { type := EventType.Added, object := some (ConvertNamespaceFromExternal ns) }
      else s
  | false, some proj =>
    tryEnqueue w
      { s with knownProjects := eraseKnown s.knownProjects namespaceName }
      { type := EventType.Deleted, object := some proj }
  | false, none => s

/-- Modelled from the spec: one forwarding step of the run loop — the head of
the internal queue is moved, in FIFO order, to the externally observable
output stream (spec section 4.2). -/
def drainOne (s : WatcherState) : WatcherState :=
  match s.queue with
  | [] => s
  | e :: rest => { s with queue := rest, outgoing := s.outgoing ++ [e] }

/-- One step of an interleaved execution: either a membership-change
notification delivered by the membership cache, or the run loop forwarding one
queued event. -/
inductive Step where
  | notify (namespaceName : String) (users groups : List String)
  | drain
deriving Repr

/-- Apply one step to the watcher state. -/
def step (w : userProjectWatcher) (s : WatcherState) : Step → WatcherState
  | Step.notify n u g => GroupMembershipChanged w s n u g
  | Step.drain => drainOne s

/-- Apply a finite sequence of steps to the watcher state. -/
def run (w : userProjectWatcher) (s : WatcherState) : List Step → WatcherState
  | [] => s
  | st :: rest => run w (step w s st) rest

/-- The sequence of events accepted by the internal queue over the watcher's
lifetime, in FIFO order: events already forwarded followed by events still
queued.  Forwarding (`drainOne`) preserves this sequence. -/
def trace (s : WatcherState) : List Event :=
  s.outgoing ++ s.queue

/-- The terminal error event (carries no object). -/
def errorEvent : Event :=
  { type := EventType.Error, object := none }

/-- Modelled from the spec: the complete output stream observed by a consumer
once the run loop terminates — the forwarded events, followed by a single
Error event when a terminal error was recorded (spec section 4.2). -/
def outputClose (s : WatcherState) : List Event :=
  s.outgoing ++ (if s.cacheError.isSome then [errorEvent] else [])

/-! ### Basic lemmas about the association list and the queue -/

@[simp]
theorem lookupKnown_nil (n : String) : lookupKnown [] n = none := rfl

theorem lookupKnown_cons (kv : String × Project) (l : List (String × Project)) (n : String) :
    lookupKnown (kv :: l) n = if kv.1 = n then some kv.2 else lookupKnown l n := rfl

@[simp]
theorem lookupKnown_cons_self (m : String) (p : Project) (l : List (String × Project)) :
    lookupKnown ((m, p) :: l) m = some p := by
  simp [lookupKnown]

theorem lookupKnown_cons_ne (m : String) (p : Project) (l : List (String × Project))
    (n : String) (h : m ≠ n) : lookupKnown ((m, p) :: l) n = lookupKnown l n := by
  simp [lookupKnown, h]

theorem lookupKnown_mem {l : List (String × Project)} {n : String} {p : Project}
    (h : lookupKnown l n = some p) : (n, p) ∈ l := by
  induction l with
  | nil => simp [lookupKnown] at h
  | cons kv rest ih =>
    obtain ⟨k, v⟩ := kv
    rw [lookupKnown_cons] at h
    by_cases hk : k = n
    · subst hk
      simp at h
      subst h
      exact List.mem_cons_self _ _
    · simp only [hk] at h
      simp [hk] at h
      exact List.mem_cons_of_mem _ (ih h)

@[simp]
theorem lookupKnown_erase_self (l : List (String × Project)) (n : String) :
    lookupKnown (eraseKnown l n) n = none := by
  induction l with
  | nil => rfl
  | cons kv rest ih =>
    by_cases hk : kv.1 = n <;> simp [eraseKnown, lookupKnown, hk, ih]

theorem lookupKnown_erase_ne (l : List (String × Project)) (m n : String) (h : n ≠ m) :
    lookupKnown (eraseKnown l m) n = lookupKnown l n := by
  induction l with
  | nil => rfl
  | cons kv rest ih =>
    by_cases hk : kv.1 = m
    · have hkn : kv.1 ≠ n := by rw [hk]; exact fun hc => h hc.symm
      rw [show eraseKnown (kv :: rest) m = eraseKnown rest m by simp [eraseKnown, hk],
        ih, lookupKnown_cons, if_neg hkn]
    · rw [show eraseKnown (kv :: rest) m = kv :: eraseKnown rest m by simp [eraseKnown, hk],
        lookupKnown_cons, lookupKnown_cons, ih]

theorem mem_eraseKnown {l : List (String × Project)} {n : String} {kv : String × Project}
    (h : kv ∈ eraseKnown l n) : kv ∈ l := by
  induction l with
  | nil => simp [eraseKnown] at h
  | cons kv0 rest ih =>
    by_cases hk : kv0.1 = n
    · simp only [eraseKnown, if_pos hk] at h
      exact List.mem_cons_of_mem _ (ih h)
    · simp only [eraseKnown, if_neg hk] at h
      rcases List.mem_cons.mp h with h0 | h0
      · exact h0 ▸ List.mem_cons_self _ _
      · exact List.mem_cons_of_mem _ (ih h0)

/-- `tryEnqueue` never changes KnownState. -/
@[simp]
theorem tryEnqueue_knownProjects (w : userProjectWatcher) (s : WatcherState) (e : Event) :
    (tryEnqueue w s e).knownProjects = s.knownProjects := by
  unfold tryEnqueue
  cases s.cacheError <;> simp
  split <;> rfl

/-- `tryEnqueue` never changes the forwarded events. -/
@[simp]
theorem tryEnqueue_outgoing (w : userProjectWatcher) (s : WatcherState) (e : Event) :
    (tryEnqueue w s e).outgoing = s.outgoing := by
  unfold tryEnqueue
  cases s.cacheError <;> simp
  split <;> rfl

/-- The three possible outcomes of an enqueue attempt. -/
theorem tryEnqueue_cases (w : userProjectWatcher) (s : WatcherState) (e : Event) :
    (s.cacheError ≠ none ∧ tryEnqueue w s e = s) ∨
    (s.cacheError = none ∧ s.queue.length < w.capacity ∧
      tryEnqueue w s e = { s with queue := s.queue ++ [e] }) ∨
    (s.cacheError = none ∧ ¬ s.queue.length < w.capacity ∧
      tryEnqueue w s e =
        { s with removedCount := s.removedCount + 1,
                 cacheError := some "notification timeout" }) := by
  unfold tryEnqueue
  cases h : s.cacheError with
  | some msg => exact Or.inl ⟨by simp, rfl⟩
  | none =>
    by_cases hq : s.queue.length < w.capacity
    · exact Or.inr (Or.inl ⟨rfl, hq, by simp [hq]⟩)
    · exact Or.inr (Or.inr ⟨rfl, hq, by simp [hq]⟩)

/-- `drainOne` preserves the lifetime event trace. -/
@[simp]
theorem trace_drainOne (s : WatcherState) : trace (drainOne s) = trace s := by
  unfold drainOne
  cases hq : s.queue with
  | nil => rfl
  | cons e rest => simp [trace, hq]

@[simp]
theorem drainOne_knownProjects (s : WatcherState) :
    (drainOne s).knownProjects = s.knownProjects := by
  unfold drainOne
  cases hq : s.queue <;> rfl

@[simp]
theorem drainOne_cacheError (s : WatcherState) :
    (drainOne s).cacheError = s.cacheError := by
  unfold drainOne
  cases hq : s.queue <;> rfl

@[simp]
theorem drainOne_removedCount (s : WatcherState) :
    (drainOne s).removedCount = s.removedCount := by
  unfold drainOne
  cases hq : s.queue <;> rfl

theorem run_append (w : userProjectWatcher) (s : WatcherState) (l l' : List Step) :
    run w s (l ++ l') = run w (run w s l) l' := by
  induction l generalizing s with
  | nil => rfl
  | cons st rest ih => simp [run, ih]

/-! ### Branch equations for the diff engine -/

theorem gmc_invisible_unknown (w : userProjectWatcher) (s : WatcherState)
    (n : String) (u g : List String)
    (hv : (w.scope.allows n && hasAccess w u g) = false)
    (hk : lookupKnown s.knownProjects n = none) :
    GroupMembershipChanged w s n u g = s := by
  unfold GroupMembershipChanged
  rw [hv, hk]

theorem gmc_visible_known (w : userProjectWatcher) (s : WatcherState)
    (n : String) (u g : List String) (p : Project)
    (hv : (w.scope.allows n && hasAccess w u g) = true)
    (hk : lookupKnown s.knownProjects n = some p) :
    GroupMembershipChanged w s n u g = s := by
  unfold GroupMembershipChanged
  rw [hv, hk]

theorem gmc_invisible_known (w : userProjectWatcher) (s : WatcherState)
    (n : String) (u g : List String) (p : Project)
    (hv : (w.scope.allows n && hasAccess w u g) = false)
    (hk : lookupKnown s.knownProjects n = some p) :
    GroupMembershipChanged w s n u g
      = tryEnqueue w { s with knownProjects := eraseKnown s.knownProjects n }
          { type := EventType.Deleted, object := some p } := by
  unfold GroupMembershipChanged
  rw [hv, hk]

theorem gmc_visible_unknown_miss (w : userProjectWatcher) (s : WatcherState)
    (n : String) (u g : List String)
    (hv : (w.scope.allows n && hasAccess w u g) = true)
    (hk : lookupKnown s.knownProjects n = none)
    (hns : w.lookupNs n = none) :
    GroupMembershipChanged w s n u g = s := by
  unfold GroupMembershipChanged
  rw [hv, hk]
  simp only [hns]

theorem gmc_visible_unknown_reject (w : userProjectWatcher) (s : WatcherState)
    (n : String) (u g : List String) (ns : Nspace)
    (hv : (w.scope.allows n && hasAccess w u g) = true)
    (hk : lookupKnown s.knownProjects n = none)
    (hns : w.lookupNs n = some ns)
    (hp : w.predicate (ConvertNamespaceFromExternal ns) = false) :
    GroupMembershipChanged w s n u g = s := by
  unfold GroupMembershipChanged
  rw [hv, hk]
  simp [hns, hp]

theorem gmc_visible_unknown_accept (w : userProjectWatcher) (s : WatcherState)
    (n : String) (u g : List String) (ns : Nspace)
    (hv : (w.scope.allows n && hasAccess w u g) = true)
    (hk : lookupKnown s.knownProjects n = none)
    (hns : w.lookupNs n = some ns)
    (hp : w.predicate (ConvertNamespaceFromExternal ns) = true) :
    GroupMembershipChanged w s n u g
      = tryEnqueue w
          { s with knownProjects :=
              (n, ConvertNamespaceFromExternal ns) :: s.knownProjects }
          { type := EventType.Added, object := some (ConvertNamespaceFromExternal ns) } := by
  unfold GroupMembershipChanged
  rw [hv, hk]
  simp only [hns, hp, if_true]

/-! ### Structural lemmas about the diff engine -/

/-- A membership change for one namespace never touches the KnownState entry
of a different namespace. -/
theorem gmc_knownProjects_other (w : userProjectWatcher) (s : WatcherState)
    (m : String) (u g : List String) (n : String) (h : n ≠ m) :
    lookupKnown (GroupMembershipChanged w s m u g).knownProjects n
      = lookupKnown s.knownProjects n := by
  cases hv : w.scope.allows m && hasAccess w u g with
  | false =>
    cases hk : lookupKnown s.knownProjects m with
    | none => rw [gmc_invisible_unknown w s m u g hv hk]
    | some p =>
      rw [gmc_invisible_known w s m u g p hv hk]
      simp [lookupKnown_erase_ne _ _ _ h]
  | true =>
    cases hk : lookupKnown s.knownProjects m with
    | some p => rw [gmc_visible_known w s m u g p hv hk]
    | none =>
      cases hns : w.lookupNs m with
      | none => rw [gmc_visible_unknown_miss w s m u g hv hk hns]
      | some ns =>
        cases hp : w.predicate (ConvertNamespaceFromExternal ns) with
        | false => rw [gmc_visible_unknown_reject w s m u g ns hv hk hns hp]
        | true =>
          rw [gmc_visible_unknown_accept w s m u g ns hv hk hns hp]
          simp [lookupKnown_cons_ne _ _ _ _ (Ne.symm h)]

/-- The diff engine never changes the already-forwarded prefix of the trace. -/
theorem gmc_outgoing (w : userProjectWatcher) (s : WatcherState)
    (m : String) (u g : List String) :
    (GroupMembershipChanged w s m u g).outgoing = s.outgoing := by
  cases hv : w.scope.allows m && hasAccess w u g with
  | false =>
    cases hk : lookupKnown s.knownProjects m with
    | none => rw [gmc_invisible_unknown w s m u g hv hk]
    | some p => rw [gmc_invisible_known w s m u g p hv hk, tryEnqueue_outgoing]
  | true =>
    cases hk : lookupKnown s.knownProjects m with
    | some p => rw [gmc_visible_known w s m u g p hv hk]
    | none =>
      cases hns : w.lookupNs m with
      | none => rw [gmc_visible_unknown_miss w s m u g hv hk hns]
      | some ns =>
        cases hp : w.predicate (ConvertNamespaceFromExternal ns) with
        | false => rw [gmc_visible_unknown_reject w s m u g ns hv hk hns hp]
        | true => rw [gmc_visible_unknown_accept w s m u g ns hv hk hns hp, tryEnqueue_outgoing]

/-- Redundant notifications are no-ops: delivering the same membership
snapshot a second time leaves the state exactly as it was after the first
delivery, whatever that state was. -/
theorem gmc_idem (w : userProjectWatcher) (s : WatcherState)
    (n : String) (u g : List String) :
    GroupMembershipChanged w (GroupMembershipChanged w s n u g) n u g
      = GroupMembershipChanged w s n u g := by
  cases hv : w.scope.allows n && hasAccess w u g with
  | false =>
    cases hk : lookupKnown s.knownProjects n with
    | none =>
      rw [gmc_invisible_unknown w s n u g hv hk, gmc_invisible_unknown w s n u g hv hk]
    | some p =>
      rw [gmc_invisible_known w s n u g p hv hk]
      exact gmc_invisible_unknown w _ n u g hv (by simp)
  | true =>
    cases hk : lookupKnown s.knownProjects n with
    | some p =>
      rw [gmc_visible_known w s n u g p hv hk, gmc_visible_known w s n u g p hv hk]
    | none =>
      cases hns : w.lookupNs n with
      | none =>
        rw [gmc_visible_unknown_miss w s n u g hv hk hns,
          gmc_visible_unknown_miss w s n u g hv hk hns]
      | some ns =>
        cases hp : w.predicate (ConvertNamespaceFromExternal ns) with
        | false =>
          rw [gmc_visible_unknown_reject w s n u g ns hv hk hns hp,
            gmc_visible_unknown_reject w s n u g ns hv hk hns hp]
        | true =>
          rw [gmc_visible_unknown_accept w s n u g ns hv hk hns hp]
          exact gmc_visible_known w _ n u g (ConvertNamespaceFromExternal ns) hv (by simp)

/-! ### Concrete fixtures shared by scenario claims -/

/-- The watcher of the test scenarios: principal "bob" with the given groups,
wildcard scope, a namespace cache holding only ns-01, a match-everything
predicate, and the given internal queue capacity. -/
def bobWatcher (groups : List String) (cap : Nat) : userProjectWatcher :=
  { username := "bob", groups := groups, scope := Scope.Wildcard,
    namespaces := [{ name := "ns-01" }], predicate := fun _ => true, capacity := cap }

/-! ### Claim theorems -/

/-- C1: for a freshly started watcher for "bob" whose namespace cache holds
ns-01, a membership notification that makes the watcher visible (bob in the
users set or a group intersection) enqueues exactly one Added event carrying
the project named ns-01, and a subsequent notification removing that
visibility enqueues exactly one further Deleted event carrying the project
named ns-01. -/
theorem membership_gain_loss_events (groups u1 g1 u2 g2 : List String) (cap : Nat)
    (hcap : 2 ≤ cap)
    (h1 : hasAccess (bobWatcher groups cap) u1 g1 = true)
    (h2 : hasAccess (bobWatcher groups cap) u2 g2 = false) :
    trace (GroupMembershipChanged (bobWatcher groups cap) initialState "ns-01" u1 g1)
      = [{ type := EventType.Added, object := some { name := "ns-01" } }] ∧
    trace (GroupMembershipChanged (bobWatcher groups cap)
        (GroupMembershipChanged (bobWatcher groups cap) initialState "ns-01" u1 g1)
        "ns-01" u2 g2)
      = [{ type := EventType.Added, object := some { name := "ns-01" } },
         { type := EventType.Deleted, object := some { name := "ns-01" } }] := by
  have hv1 : ((bobWatcher groups cap).scope.allows "ns-01"
      && hasAccess (bobWatcher groups cap) u1 g1) = true := by
    rw [show (bobWatcher groups cap).scope.allows "ns-01" = true from rfl, Bool.true_and]
    exact h1
  have e1 : GroupMembershipChanged (bobWatcher groups cap) initialState "ns-01" u1 g1
      = { knownProjects := [("ns-01", { name := "ns-01" })],
          queue := [{ type := EventType.Added, object := some { name := "ns-01" } }],
          outgoing := [], removedCount := 0, cacheError := none } := by
    rw [gmc_visible_unknown_accept (bobWatcher groups cap) initialState "ns-01" u1 g1
      { name := "ns-01" } hv1 rfl rfl rfl]
    unfold tryEnqueue
    have hlen : (0 : Nat) < cap := by omega
    simp [initialState, ConvertNamespaceFromExternal, hlen, bobWatcher]
  have hv2 : ((bobWatcher groups cap).scope.allows "ns-01"
      && hasAccess (bobWatcher groups cap) u2 g2) = false := by
    rw [show (bobWatcher groups cap).scope.allows "ns-01" = true from rfl, Bool.true_and]
    exact h2
  have e2 : GroupMembershipChanged (bobWatcher groups cap)
      { knownProjects := [("ns-01", { name := "ns-01" })],
        queue := [{ type := EventType.Added, object := some { name := "ns-01" } }],
        outgoing := [], removedCount := 0, cacheError := none }
      "ns-01" u2 g2
      = { knownProjects := [],
          queue := [{ type := EventType.Added, object := some { name := "ns-01" } },
            { type := EventType.Deleted, object := some { name := "ns-01" } }],
          outgoing := [], removedCount := 0, cacheError := none } := by
    rw [gmc_invisible_known (bobWatcher groups cap)
      { knownProjects := [("ns-01", { name := "ns-01" })],
        queue := [{ type := EventType.Added, object := some { name := "ns-01" } }],
        outgoing := [], removedCount := 0, cacheError := none }
      "ns-01" u2 g2 { name := "ns-01" } hv2 rfl]
    unfold tryEnqueue
    have hlen : (1 : Nat) < cap := by omega
    simp [eraseKnown, hlen, bobWatcher]
  rw [e1, e2]
  exact ⟨rfl, rfl⟩

/-- C1 witness: the two cited concrete scenarios — the user path
(identity bob with no groups, users set {bob} then {alice}) and the group path
(identity bob in group-one, groups set {group-one} then {group-two}) — at
capacity 1000. -/
theorem membership_gain_loss_events_witness :
    (2 ≤ 1000 ∧ hasAccess (bobWatcher [] 1000) ["bob"] [] = true
      ∧ hasAccess (bobWatcher [] 1000) ["alice"] [] = false
      ∧ (trace (GroupMembershipChanged (bobWatcher [] 1000) initialState "ns-01" ["bob"] [])
          = [{ type := EventType.Added, object := some { name := "ns-01" } }] ∧
        trace (GroupMembershipChanged (bobWatcher [] 1000)
            (GroupMembershipChanged (bobWatcher [] 1000) initialState "ns-01" ["bob"] [])
            "ns-01" ["alice"] [])
          = [{ type := EventType.Added, object := some { name := "ns-01" } },
             { type := EventType.Deleted, object := some { name := "ns-01" } }])) ∧
    (hasAccess (bobWatcher ["group-one"] 1000) [] ["group-one"] = true
      ∧ hasAccess (bobWatcher ["group-one"] 1000) [] ["group-two"] = false
      ∧ (trace (GroupMembershipChanged (bobWatcher ["group-one"] 1000) initialState
            "ns-01" [] ["group-one"])
          = [{ type := EventType.Added, object := some { name := "ns-01" } }] ∧
        trace (GroupMembershipChanged (bobWatcher ["group-one"] 1000)
            (GroupMembershipChanged (bobWatcher ["group-one"] 1000) initialState
              "ns-01" [] ["group-one"])
            "ns-01" [] ["group-two"])
          = [{ type := EventType.Added, object := some { name := "ns-01" } },
             { type := EventType.Deleted, object := some { name := "ns-01" } }])) :=
  ⟨⟨by decide, by decide, by decide,
      membership_gain_loss_events [] ["bob"] [] ["alice"] [] 1000
        (by decide) (by decide) (by decide)⟩,
    ⟨by decide, by decide,
      membership_gain_loss_events ["group-one"] [] ["group-one"] [] ["group-two"] 1000
        (by decide) (by decide) (by decide)⟩⟩

/-- C4: invoking GroupMembershipChanged a second time with user and group sets
identical to an already-processed notification for the same namespace enqueues
no event and leaves KnownState unchanged — redundant notifications are
idempotent no-ops. -/
theorem redundant_notification_idempotent (w : userProjectWatcher) (s : WatcherState)
    (n : String) (u g : List String) :
    trace (GroupMembershipChanged w (GroupMembershipChanged w s n u g) n u g)
      = trace (GroupMembershipChanged w s n u g) ∧
    (GroupMembershipChanged w (GroupMembershipChanged w s n u g) n u g).knownProjects
      = (GroupMembershipChanged w s n u g).knownProjects := by
  rw [gmc_idem]
  exact ⟨rfl, rfl⟩

/-- The watcher of the predicate-scoping scenario: predicate selecting only
the project named ns-03, namespace cache holding ns-01, ns-02 and ns-03. -/
def selectionWatcher : userProjectWatcher :=
  { username := "bob", groups := [], scope := Scope.Wildcard,
    namespaces := [{ name := "ns-01" }, { name := "ns-02" }, { name := "ns-03" }],
    predicate := fun p => p.name == "ns-03", capacity := 1000 }

/-- C6: with a predicate matching only ns-03, visibility gains and losses for
ns-01 and ns-02 produce no events, while a gain for ns-03 produces an Added
event and a subsequent loss for ns-03 produces a Deleted event. -/
theorem predicate_scoping_events :
    trace (run selectionWatcher initialState
      [Step.notify "ns-01" ["bob"] []]) = [] ∧
    trace (run selectionWatcher initialState
      [Step.notify "ns-01" ["bob"] [], Step.notify "ns-02" ["bob"] []]) = [] ∧
    trace (run selectionWatcher initialState
      [Step.notify "ns-01" ["bob"] [], Step.notify "ns-02" ["bob"] [],
       Step.notify "ns-03" ["bob"] []])
      = [{ type := EventType.Added, object := some { name := "ns-03" } }] ∧
    trace (run selectionWatcher initialState
      [Step.notify "ns-01" ["bob"] [], Step.notify "ns-02" ["bob"] [],
       Step.notify "ns-03" ["bob"] [], Step.notify "ns-01" ["alice"] []])
      = [{ type := EventType.Added, object := some { name := "ns-03" } }] ∧
    trace (run selectionWatcher initialState
      [Step.notify "ns-01" ["bob"] [], Step.notify "ns-02" ["bob"] [],
       Step.notify "ns-03" ["bob"] [], Step.notify "ns-01" ["alice"] [],
       Step.notify "ns-02" ["alice"] []])
      = [{ type := EventType.Added, object := some { name := "ns-03" } }] ∧
    trace (run selectionWatcher initialState
      [Step.notify "ns-01" ["bob"] [], Step.notify "ns-02" ["bob"] [],
       Step.notify "ns-03" ["bob"] [], Step.notify "ns-01" ["alice"] [],
       Step.notify "ns-02" ["alice"] [], Step.notify "ns-03" ["alice"] []])
      = [{ type := EventType.Added, object := some { name := "ns-03" } },
         { type := EventType.Deleted, object := some { name := "ns-03" } }] := by
  decide

/-- C8: when a membership notification makes a namespace visible but the
namespace cache lookup for that name is absent, the diff engine is a complete
no-op — no event enqueued, no error recorded, the state unchanged, and
KnownState still has no entry for that namespace. -/
theorem lookup_miss_noop (w : userProjectWatcher) (s : WatcherState)
    (n : String) (u g : List String)
    (hv : (w.scope.allows n && hasAccess w u g) = true)
    (hns : w.lookupNs n = none)
    (hk : lookupKnown s.knownProjects n = none) :
    GroupMembershipChanged w s n u g = s ∧
    trace (GroupMembershipChanged w s n u g) = trace s ∧
    (GroupMembershipChanged w s n u g).cacheError = s.cacheError ∧
    lookupKnown (GroupMembershipChanged w s n u g).knownProjects n = none := by
  have he := gmc_visible_unknown_miss w s n u g hv hk hns
  refine ⟨he, by rw [he], by rw [he], by rw [he]; exact hk⟩

/-- C8 witness: bob gains visibility of ns-99, which the namespace cache does
not contain. -/
theorem lookup_miss_noop_witness :
    (((bobWatcher [] 1000).scope.allows "ns-99" && hasAccess (bobWatcher [] 1000) ["bob"] []) = true
      ∧ (bobWatcher [] 1000).lookupNs "ns-99" = none
      ∧ lookupKnown initialState.knownProjects "ns-99" = none) ∧
    (GroupMembershipChanged (bobWatcher [] 1000) initialState "ns-99" ["bob"] [] = initialState ∧
      trace (GroupMembershipChanged (bobWatcher [] 1000) initialState "ns-99" ["bob"] [])
        = trace initialState ∧
      (GroupMembershipChanged (bobWatcher [] 1000) initialState "ns-99" ["bob"] []).cacheError
        = initialState.cacheError ∧
      lookupKnown (GroupMembershipChanged (bobWatcher [] 1000) initialState
        "ns-99" ["bob"] []).knownProjects "ns-99" = none) :=
  ⟨⟨by decide, by decide, by decide⟩,
    lookup_miss_noop (bobWatcher [] 1000) initialState "ns-99" ["bob"] []
      (by decide) (by decide) (by decide)⟩

/-- C7 counterexample: the claim that an error from the initial list() call is
propagated synchronously to the constructor's caller and that the watcher is
never started fails on the code — the constructor's only call site (test file
line 44) consumes its single return value directly, so with a failing list()
result the construction still yields an ordinary watcher state with no error
recorded, and that watcher processes membership notifications and emits events
normally. -/
theorem seed_list_failure_not_propagated :
    (NewUserProjectWatcher (Except.error "boom")).cacheError = none ∧
    NewUserProjectWatcher (Except.error "boom") = initialState ∧
    trace (GroupMembershipChanged (bobWatcher [] 1000)
        (NewUserProjectWatcher (Except.error "boom")) "ns-01" ["bob"] [])
      = [{ type := EventType.Added, object := some { name := "ns-01" } }] := by
  refine ⟨rfl, rfl, ?_⟩
  decide

/-- C7 amended: NewUserProjectWatcher has a single return value and so cannot
propagate a list() error to its caller; a failing initial list() yields a
watcher with an empty KnownState seed and no recorded error, which behaves
from then on exactly like a watcher started from the empty initial state. -/
theorem seed_list_failure_empty_seed (e : String) (w : userProjectWatcher)
    (steps : List Step) :
    NewUserProjectWatcher (Except.error e) = initialState ∧
    (NewUserProjectWatcher (Except.error e)).cacheError = none ∧
    run w (NewUserProjectWatcher (Except.error e)) steps = run w initialState steps :=
  ⟨rfl, rfl, rfl⟩

/-! ### C2: KnownState matches the last processed notification -/

/-- The users/groups sets delivered by the last notification for a given
namespace within a step sequence, if any. -/
def lastNotifyFor : List Step → String → Option (List String × List String)
  | [], _ => none
  | Step.notify m u g :: rest, n =>
    match lastNotifyFor rest n with
    | some r => some r
    | none => if m = n then some (u, g) else none
  | Step.drain :: rest, n => lastNotifyFor rest n

/-- Whether the namespace is present in the cache and its converted project
passes the selection predicate. -/
def predOk (w : userProjectWatcher) (n : String) : Bool :=
  match w.lookupNs n with
  | some ns => w.predicate (ConvertNamespaceFromExternal ns)
  | none => false

/-- The claim's condition: in the last notification processed for the
namespace, the principal is in the users set or the identity's groups
intersect the groups set, and the converted project passes the predicate. -/
def visibleOkAfter (w : userProjectWatcher) (steps : List Step) (n : String) : Bool :=
  match lastNotifyFor steps n with
  | none => false
  | some (u, g) => hasAccess w u g && predOk w n

theorem lastNotifyFor_snoc_drain (l : List Step) (n : String) :
    lastNotifyFor (l ++ [Step.drain]) n = lastNotifyFor l n := by
  induction l with
  | nil => rfl
  | cons st rest ih =>
    cases st with
    | drain => simpa [lastNotifyFor] using ih
    | notify m' u' g' => simp [lastNotifyFor, ih]

theorem lastNotifyFor_snoc_notify (l : List Step) (m : String) (u g : List String)
    (n : String) :
    lastNotifyFor (l ++ [Step.notify m u g]) n
      = if m = n then some (u, g) else lastNotifyFor l n := by
  induction l with
  | nil => rfl
  | cons st rest ih =>
    cases st with
    | drain => simpa [lastNotifyFor] using ih
    | notify m' u' g' =>
      show (match lastNotifyFor (rest ++ [Step.notify m u g]) n with
            | some r => some r
            | none => if m' = n then some (u', g') else none)
          = if m = n then some (u, g) else lastNotifyFor (Step.notify m' u' g' :: rest) n
      by_cases hm : m = n
      · subst hm
        rw [ih]
        simp
      · rw [ih, if_neg hm, if_neg hm]
        rfl

theorem visibleOkAfter_snoc_drain (w : userProjectWatcher) (l : List Step) (n : String) :
    visibleOkAfter w (l ++ [Step.drain]) n = visibleOkAfter w l n := by
  unfold visibleOkAfter
  rw [lastNotifyFor_snoc_drain]

theorem visibleOkAfter_snoc_notify (w : userProjectWatcher) (l : List Step)
    (m : String) (u g : List String) (n : String) :
    visibleOkAfter w (l ++ [Step.notify m u g]) n
      = if m = n then hasAccess w u g && predOk w n else visibleOkAfter w l n := by
  unfold visibleOkAfter
  rw [lastNotifyFor_snoc_notify]
  by_cases hm : m = n
  · rw [if_pos hm, if_pos hm]
  · rw [if_neg hm, if_neg hm]

theorem visibleOkAfter_predOk {w : userProjectWatcher} {l : List Step} {n : String}
    (h : visibleOkAfter w l n = true) : predOk w n = true := by
  unfold visibleOkAfter at h
  cases hl : lastNotifyFor l n with
  | none => rw [hl] at h; cases h
  | some r =>
    rw [hl] at h
    exact (Bool.and_eq_true_iff.mp h).2

/-- Effect of a notification on the KnownState entry of its own namespace,
for a wildcard-scoped watcher: after the call the entry exists exactly when
the delivered snapshot grants access and the cached, converted project passes
the predicate — provided any pre-existing entry was itself
predicate-passing. -/
theorem gmc_knownProjects_self (w : userProjectWatcher) (s : WatcherState)
    (n : String) (u g : List String)
    (hw : w.scope = Scope.Wildcard)
    (hinv : (lookupKnown s.knownProjects n).isSome = true → predOk w n = true) :
    (lookupKnown (GroupMembershipChanged w s n u g).knownProjects n).isSome
      = (hasAccess w u g && predOk w n) := by
  have hallow : w.scope.allows n = true := by rw [hw]; rfl
  cases ha : hasAccess w u g with
  | false =>
    have hv : (w.scope.allows n && hasAccess w u g) = false := by rw [hallow, ha]; rfl
    cases hk : lookupKnown s.knownProjects n with
    | none => rw [gmc_invisible_unknown w s n u g hv hk, hk]; rfl
    | some p =>
      rw [gmc_invisible_known w s n u g p hv hk, tryEnqueue_knownProjects,
        lookupKnown_erase_self]
      rfl
  | true =>
    have hv : (w.scope.allows n && hasAccess w u g) = true := by rw [hallow, ha]; rfl
    cases hk : lookupKnown s.knownProjects n with
    | some p =>
      rw [gmc_visible_known w s n u g p hv hk, hk, Bool.true_and,
        hinv (by rw [hk]; rfl)]
      rfl
    | none =>
      cases hns : w.lookupNs n with
      | none =>
        rw [gmc_visible_unknown_miss w s n u g hv hk hns, hk, Bool.true_and]
        simp [predOk, hns]
      | some ns =>
        cases hp : w.predicate (ConvertNamespaceFromExternal ns) with
        | false =>
          rw [gmc_visible_unknown_reject w s n u g ns hv hk hns hp, hk, Bool.true_and]
          simp [predOk, hns, hp]
        | true =>
          rw [gmc_visible_unknown_accept w s n u g ns hv hk hns hp,
            tryEnqueue_knownProjects, lookupKnown_cons_self, Bool.true_and]
          simp [predOk, hns, hp]

/-- C2: for every finite sequence of processed inputs, the wildcard-scoped
watcher's KnownState holds an entry for a namespace if and only if the last
notification processed for that namespace grants the identity access (the
principal is in the users set or the groups intersect) and the cached,
converted project passes the selection predicate. -/
theorem known_state_matches_last_notification (w : userProjectWatcher)
    (steps : List Step) (n : String) (hscope : w.scope = Scope.Wildcard) :
    (lookupKnown (run w initialState steps).knownProjects n).isSome
      = visibleOkAfter w steps n := by
  induction steps using List.reverseRecOn with
  | nil => rfl
  | append_singleton l st ih =>
    rw [run_append]
    cases st with
    | drain =>
      rw [show run w (run w initialState l) [Step.drain]
          = drainOne (run w initialState l) from rfl,
        drainOne_knownProjects, visibleOkAfter_snoc_drain]
      exact ih
    | notify m u g =>
      rw [show run w (run w initialState l) [Step.notify m u g]
          = GroupMembershipChanged w (run w initialState l) m u g from rfl,
        visibleOkAfter_snoc_notify]
      by_cases hm : m = n
      · subst hm
        rw [if_pos rfl]
        exact gmc_knownProjects_self w _ m u g hscope
          (fun hi => visibleOkAfter_predOk (ih ▸ hi))
      · rw [if_neg hm, gmc_knownProjects_other w _ m u g n (fun hc => hm hc.symm)]
        exact ih

/-- C2 witness: a concrete three-step sequence — gain, forward, loss — for
ns-01 against the bob watcher; after processing, KnownState has no entry for
ns-01 and the claim's condition also evaluates to false. -/
theorem known_state_matches_last_notification_witness :
    (bobWatcher [] 1000).scope = Scope.Wildcard ∧
    (lookupKnown (run (bobWatcher [] 1000) initialState
        [Step.notify "ns-01" ["bob"] [], Step.drain,
         Step.notify "ns-01" ["alice"] []]).knownProjects "ns-01").isSome
      = visibleOkAfter (bobWatcher [] 1000)
          [Step.notify "ns-01" ["bob"] [], Step.drain,
           Step.notify "ns-01" ["alice"] []] "ns-01" :=
  ⟨rfl, known_state_matches_last_notification (bobWatcher [] 1000)
    [Step.notify "ns-01" ["bob"] [], Step.drain,
     Step.notify "ns-01" ["alice"] []] "ns-01" rfl⟩

/-! ### C3: backpressure overflow causes exactly-once teardown -/

/-- Whether an event is the terminal Error event. -/
def isErrorEvent (e : Event) : Bool := e.type == EventType.Error

/-- The removal counter is in lock-step with the terminal error: RemoveWatcher
has been called exactly once when a terminal error is recorded, never
otherwise. -/
def counterOk (s : WatcherState) : Prop :=
  s.removedCount = (if s.cacheError.isSome then 1 else 0)

/-- No Error event ever enters the internal queue; Error is only appended at
stream close. -/
def traceEventsOk (s : WatcherState) : Prop :=
  ∀ e ∈ trace s, e.type ≠ EventType.Error

theorem counterOk_tryEnqueue (w : userProjectWatcher) (s : WatcherState) (e : Event)
    (h : counterOk s) : counterOk (tryEnqueue w s e) := by
  rcases tryEnqueue_cases w s e with ⟨h1, he⟩ | ⟨h1, h2, he⟩ | ⟨h1, h2, he⟩ <;> rw [he]
  · exact h
  · exact h
  · unfold counterOk at h ⊢
    rw [h1] at h
    simp at h
    simp [h]

theorem traceEventsOk_tryEnqueue (w : userProjectWatcher) (s : WatcherState) (e : Event)
    (h : traceEventsOk s) (he : e.type ≠ EventType.Error) :
    traceEventsOk (tryEnqueue w s e) := by
  rcases tryEnqueue_cases w s e with ⟨h1, heq⟩ | ⟨h1, h2, heq⟩ | ⟨h1, h2, heq⟩ <;> rw [heq]
  · exact h
  · intro x hx
    unfold trace at hx
    simp at hx
    rcases hx with hx | hx | hx
    · exact h x (by unfold trace; exact List.mem_append_left _ hx)
    · exact h x (by unfold trace; exact List.mem_append_right _ hx)
    · rw [hx]; exact he
  · exact h

/-- The intermediate states handed to `tryEnqueue` by the diff engine share
`trace`, `removedCount` and `cacheError` with the original state, so both
invariants pass through `GroupMembershipChanged`. -/
theorem counterOk_gmc (w : userProjectWatcher) (s : WatcherState)
    (n : String) (u g : List String) (h : counterOk s) :
    counterOk (GroupMembershipChanged w s n u g) := by
  cases hv : w.scope.allows n && hasAccess w u g with
  | false =>
    cases hk : lookupKnown s.knownProjects n with
    | none => rw [gmc_invisible_unknown w s n u g hv hk]; exact h
    | some p =>
      rw [gmc_invisible_known w s n u g p hv hk]
      exact counterOk_tryEnqueue w _ _ h
  | true =>
    cases hk : lookupKnown s.knownProjects n with
    | some p => rw [gmc_visible_known w s n u g p hv hk]; exact h
    | none =>
      cases hns : w.lookupNs n with
      | none => rw [gmc_visible_unknown_miss w s n u g hv hk hns]; exact h
      | some ns =>
        cases hp : w.predicate (ConvertNamespaceFromExternal ns) with
        | false => rw [gmc_visible_unknown_reject w s n u g ns hv hk hns hp]; exact h
        | true =>
          rw [gmc_visible_unknown_accept w s n u g ns hv hk hns hp]
          exact counterOk_tryEnqueue w _ _ h

theorem traceEventsOk_gmc (w : userProjectWatcher) (s : WatcherState)
    (n : String) (u g : List String) (h : traceEventsOk s) :
    traceEventsOk (GroupMembershipChanged w s n u g) := by
  cases hv : w.scope.allows n && hasAccess w u g with
  | false =>
    cases hk : lookupKnown s.knownProjects n with
    | none => rw [gmc_invisible_unknown w s n u g hv hk]; exact h
    | some p =>
      rw [gmc_invisible_known w s n u g p hv hk]
      exact traceEventsOk_tryEnqueue w _ _ h (by intro hc; cases hc)
  | true =>
    cases hk : lookupKnown s.knownProjects n with
    | some p => rw [gmc_visible_known w s n u g p hv hk]; exact h
    | none =>
      cases hns : w.lookupNs n with
      | none => rw [gmc_visible_unknown_miss w s n u g hv hk hns]; exact h
      | some ns =>
        cases hp : w.predicate (ConvertNamespaceFromExternal ns) with
        | false => rw [gmc_visible_unknown_reject w s n u g ns hv hk hns hp]; exact h
        | true =>
          rw [gmc_visible_unknown_accept w s n u g ns hv hk hns hp]
          exact traceEventsOk_tryEnqueue w _ _ h (by intro hc; cases hc)

theorem counterOk_run (w : userProjectWatcher) (s : WatcherState) (steps : List Step)
    (h : counterOk s) : counterOk (run w s steps) := by
  induction steps generalizing s with
  | nil => exact h
  | cons st rest ih =>
    cases st with
    | notify n u g => exact ih _ (counterOk_gmc w s n u g h)
    | drain =>
      refine ih (step w s Step.drain) ?_
      show counterOk (drainOne s)
      unfold counterOk
      rw [drainOne_removedCount, drainOne_cacheError]
      exact h

theorem traceEventsOk_run (w : userProjectWatcher) (s : WatcherState) (steps : List Step)
    (h : traceEventsOk s) : traceEventsOk (run w s steps) := by
  induction steps generalizing s with
  | nil => exact h
  | cons st rest ih =>
    cases st with
    | notify n u g => exact ih _ (traceEventsOk_gmc w s n u g h)
    | drain =>
      refine ih (step w s Step.drain) ?_
      show traceEventsOk (drainOne s)
      unfold traceEventsOk
      rw [trace_drainOne]
      exact h

/-- C3: if at any point the internal queue cannot accept an event within the
bounded grace window, then over the whole run the watcher has invoked the
membership cache's RemoveWatcher hook exactly once, and the closed output
stream contains exactly one Error event, as its final element.  (The call
itself is a total function of the state, modelling the contract that it
returns without blocking the caller.) -/
theorem backpressure_overflow_teardown (w : userProjectWatcher) (steps : List Step)
    (hfatal : (run w initialState steps).cacheError.isSome = true) :
    (run w initialState steps).removedCount = 1 ∧
    ((outputClose (run w initialState steps)).filter isErrorEvent).length = 1 ∧
    (outputClose (run w initialState steps)).getLast? = some errorEvent := by
  have hc : counterOk (run w initialState steps) := counterOk_run w initialState steps rfl
  have ht : traceEventsOk (run w initialState steps) :=
    traceEventsOk_run w initialState steps (by intro e he; cases he)
  have houtgoing : ((run w initialState steps).outgoing.filter isErrorEvent) = [] := by
    rw [List.filter_eq_nil_iff]
    intro e he
    have : e.type ≠ EventType.Error :=
      ht e (by unfold trace; exact List.mem_append_left _ he)
    simp [isErrorEvent, this]
  refine ⟨?_, ?_, ?_⟩
  · unfold counterOk at hc
    rw [hfatal] at hc
    simpa using hc
  · unfold outputClose
    rw [hfatal, if_pos rfl, List.filter_append, houtgoing]
    rfl
  · unfold outputClose
    rw [hfatal, if_pos rfl]
    simp

/-- C3 witness: a watcher whose internal queue has capacity zero; the first
visibility gain overflows immediately. -/
theorem backpressure_overflow_teardown_witness :
    (run (bobWatcher [] 0) initialState
        [Step.notify "ns-01" ["bob"] []]).cacheError.isSome = true ∧
    ((run (bobWatcher [] 0) initialState
        [Step.notify "ns-01" ["bob"] []]).removedCount = 1 ∧
      ((outputClose (run (bobWatcher [] 0) initialState
          [Step.notify "ns-01" ["bob"] []])).filter isErrorEvent).length = 1 ∧
      (outputClose (run (bobWatcher [] 0) initialState
          [Step.notify "ns-01" ["bob"] []])).getLast? = some errorEvent) :=
  ⟨by decide,
    backpressure_overflow_teardown (bobWatcher [] 0)
      [Step.notify "ns-01" ["bob"] []] (by decide)⟩

/-! ### C5: per-namespace alternation of Added and Deleted -/

/-- The namespace name carried by an event, if any. -/
def eventName (e : Event) : Option String := e.object.map Project.name

/-- The subsequence of a trace concerning one namespace. -/
def eventsFor (n : String) (l : List Event) : List Event :=
  l.filter (fun e => eventName e == some n)

/-- No two adjacent events have the same kind. -/
def alternates : List Event → Bool
  | [] => true
  | [_] => true
  | a :: b :: rest => (a.type != b.type) && alternates (b :: rest)

/-- Every event in the list is an Added or a Deleted. -/
def addedOrDeleted (l : List Event) : Bool :=
  l.all (fun e => e.type == EventType.Added || e.type == EventType.Deleted)

/-- The kind of the last event of the list, if any. -/
def lastType (l : List Event) : Option EventType :=
  l.getLast?.map Event.type

theorem eventsFor_snoc_self (n : String) (l : List Event) (e : Event)
    (he : eventName e = some n) : eventsFor n (l ++ [e]) = eventsFor n l ++ [e] := by
  unfold eventsFor
  rw [List.filter_append]
  congr 1
  simp [he]

theorem eventsFor_snoc_other (n : String) (l : List Event) (e : Event)
    (he : eventName e ≠ some n) : eventsFor n (l ++ [e]) = eventsFor n l := by
  unfold eventsFor
  rw [List.filter_append]
  have hb : (eventName e == some n) = false := by
    cases hb : eventName e == some n
    · rfl
    · exact absurd (eq_of_beq hb) he
  simp [hb]

theorem lastType_snoc (l : List Event) (e : Event) : lastType (l ++ [e]) = some e.type := by
  simp [lastType]

theorem alternates_snoc (l : List Event) (e : Event)
    (h : alternates l = true) (hl : lastType l ≠ some e.type) :
    alternates (l ++ [e]) = true := by
  induction l with
  | nil => rfl
  | cons a rest ih =>
    cases rest with
    | nil =>
      have hne : a.type ≠ e.type := fun hc => hl (by simp [lastType, hc])
      simp [alternates, hne]
    | cons b rest2 =>
      rw [show alternates (a :: b :: rest2)
          = ((a.type != b.type) && alternates (b :: rest2)) from rfl] at h
      have h1 := (Bool.and_eq_true_iff.mp h).1
      have h2 := (Bool.and_eq_true_iff.mp h).2
      have hl2 : lastType (b :: rest2) ≠ some e.type := by
        rw [show lastType (a :: b :: rest2) = lastType (b :: rest2) from by
          unfold lastType; rw [List.getLast?_cons_cons]] at hl
        exact hl
      have htail := ih h2 hl2
      show ((a.type != b.type) && alternates (b :: (rest2 ++ [e]))) = true
      rw [Bool.and_eq_true_iff]
      exact ⟨h1, by simpa using htail⟩

theorem addedOrDeleted_snoc (l : List Event) (e : Event)
    (h : addedOrDeleted l = true)
    (he : (e.type == EventType.Added || e.type == EventType.Deleted) = true) :
    addedOrDeleted (l ++ [e]) = true := by
  unfold addedOrDeleted at h ⊢
  rw [List.all_append]
  simp [h, he, List.all]

/-- A successful namespace-cache lookup returns a namespace carrying the
queried name. -/
theorem lookupNs_name {w : userProjectWatcher} {n : String} {ns : Nspace}
    (h : w.lookupNs n = some ns) : ns.name = n := by
  unfold userProjectWatcher.lookupNs at h
  have := List.find?_some h
  simpa using this

/-- Every KnownState entry stores a project carrying its key name. -/
def knownNamesOk (s : WatcherState) : Prop :=
  ∀ kv ∈ s.knownProjects, kv.2.name = kv.1

/-- Every per-namespace trace restriction is alternating and contains only
Added and Deleted events. -/
def alternationOk (s : WatcherState) : Prop :=
  ∀ n, addedOrDeleted (eventsFor n (trace s)) = true ∧
       alternates (eventsFor n (trace s)) = true

/-- While no terminal error is recorded, the last emitted kind for a
namespace agrees with the presence of its KnownState entry. -/
def linkOk (s : WatcherState) : Prop :=
  s.cacheError = none → ∀ n,
    (lastType (eventsFor n (trace s)) = some EventType.Added →
      (lookupKnown s.knownProjects n).isSome = true) ∧
    (lastType (eventsFor n (trace s)) = some EventType.Deleted →
      lookupKnown s.knownProjects n = none)

/-- The emission invariant of a running watcher. -/
def wfState (s : WatcherState) : Prop :=
  knownNamesOk s ∧ alternationOk s ∧ linkOk s

theorem wfState_new (lr : Except String (List Nspace)) :
    wfState (NewUserProjectWatcher lr) := by
  cases lr with
  | error e =>
    refine ⟨?_, ?_, ?_⟩
    · intro kv hkv
      simp [NewUserProjectWatcher, initialState] at hkv
    · intro n
      exact ⟨rfl, rfl⟩
    · intro hce n
      constructor <;> intro hc <;>
        simp [lastType, eventsFor, trace, NewUserProjectWatcher, initialState] at hc
  | ok nss =>
    refine ⟨?_, ?_, ?_⟩
    · intro kv hkv
      simp [NewUserProjectWatcher, initialState] at hkv
      obtain ⟨ns, hmem, hkv⟩ := hkv
      rw [← hkv]
      rfl
    · intro n
      exact ⟨rfl, rfl⟩
    · intro hce n
      constructor <;> intro hc <;>
        simp [lastType, eventsFor, trace, NewUserProjectWatcher, initialState] at hc

theorem wfState_initial : wfState initialState := by
  refine ⟨?_, ?_, ?_⟩
  · intro kv hkv
    simp [initialState] at hkv
  · intro n
    exact ⟨rfl, rfl⟩
  · intro hce n
    constructor <;> intro hc <;>
      simp [lastType, eventsFor, trace, initialState] at hc

/-- The diff engine preserves the emission invariant. -/
theorem wfState_gmc (w : userProjectWatcher) (s : WatcherState)
    (n : String) (u g : List String) (h : wfState s) :
    wfState (GroupMembershipChanged w s n u g) := by
  obtain ⟨hnames, halt, hlink⟩ := h
  cases hv : w.scope.allows n && hasAccess w u g with
  | true =>
    cases hk : lookupKnown s.knownProjects n with
    | some p =>
      rw [gmc_visible_known w s n u g p hv hk]
      exact ⟨hnames, halt, hlink⟩
    | none =>
      cases hns : w.lookupNs n with
      | none =>
        rw [gmc_visible_unknown_miss w s n u g hv hk hns]
        exact ⟨hnames, halt, hlink⟩
      | some ns =>
        cases hp : w.predicate (ConvertNamespaceFromExternal ns) with
        | false =>
          rw [gmc_visible_unknown_reject w s n u g ns hv hk hns hp]
          exact ⟨hnames, halt, hlink⟩
        | true =>
          rw [gmc_visible_unknown_accept w s n u g ns hv hk hns hp]
          have hname : (ConvertNamespaceFromExternal ns).name = n := lookupNs_name hns
          have hnames2 : ∀ kv ∈ (n, ConvertNamespaceFromExternal ns) :: s.knownProjects,
              kv.2.name = kv.1 := by
            intro kv hkv
            rcases List.mem_cons.mp hkv with hkv | hkv
            · rw [hkv]
              exact hname
            · exact hnames kv hkv
          have hevname : eventName
              { type := EventType.Added,
                object := some (ConvertNamespaceFromExternal ns) } = some n := by
            simp [eventName, hname]
          rcases tryEnqueue_cases w
              { s with knownProjects :=
                  (n, ConvertNamespaceFromExternal ns) :: s.knownProjects }
              { type := EventType.Added,
                object := some (ConvertNamespaceFromExternal ns) }
            with ⟨h1, heq⟩ | ⟨h1, h2, heq⟩ | ⟨h1, h2, heq⟩ <;>
            rw [heq] <;> dsimp only at h1 ⊢
          · exact ⟨hnames2, halt, fun hce => absurd hce h1⟩
          · have htr : trace
                { knownProjects := (n, ConvertNamespaceFromExternal ns) :: s.knownProjects,
                  queue := s.queue ++
                    [{ type := EventType.Added,
                       object := some (ConvertNamespaceFromExternal ns) }],
                  outgoing := s.outgoing,
                  removedCount := s.removedCount,
                  cacheError := s.cacheError }
                = trace s ++
                  [{ type := EventType.Added,
                     object := some (ConvertNamespaceFromExternal ns) }] := by
              simp [trace]
            refine ⟨hnames2, ?_, ?_⟩
            · intro m
              by_cases hm : m = n
              · subst hm
                rw [htr, eventsFor_snoc_self m _ _ hevname]
                have hlast : lastType (eventsFor m (trace s)) ≠ some EventType.Added := by
                  intro hc
                  have := (hlink h1 m).1 hc
                  rw [hk] at this
                  cases this
                exact ⟨addedOrDeleted_snoc _ _ (halt m).1 rfl,
                  alternates_snoc _ _ (halt m).2 hlast⟩
              · rw [htr, eventsFor_snoc_other m _ _
                  (by rw [hevname]; intro hc; injection hc with hcc; exact hm hcc.symm)]
                exact halt m
            · intro hce m
              by_cases hm : m = n
              · subst hm
                rw [htr, eventsFor_snoc_self m _ _ hevname, lastType_snoc]
                constructor
                · intro hc
                  rw [lookupKnown_cons_self]
                  rfl
                · intro hc
                  injection hc with hc
                  cases hc
              · rw [htr, eventsFor_snoc_other m _ _
                  (by rw [hevname]; intro hc; injection hc with hcc; exact hm hcc.symm),
                  lookupKnown_cons_ne n _ _ m (fun hc => hm hc.symm)]
                exact hlink h1 m
          · exact ⟨hnames2, halt, fun hce => Option.noConfusion hce⟩
  | false =>
    cases hk : lookupKnown s.knownProjects n with
    | none =>
      rw [gmc_invisible_unknown w s n u g hv hk]
      exact ⟨hnames, halt, hlink⟩
    | some p =>
      rw [gmc_invisible_known w s n u g p hv hk]
      have hpname : p.name = n := hnames (n, p) (lookupKnown_mem hk)
      have hnames2 : ∀ kv ∈ eraseKnown s.knownProjects n, kv.2.name = kv.1 := by
        intro kv hkv
        exact hnames kv (mem_eraseKnown hkv)
      have hevname : eventName { type := EventType.Deleted, object := some p } = some n := by
        simp [eventName, hpname]
      rcases tryEnqueue_cases w
          { s with knownProjects := eraseKnown s.knownProjects n }
          { type := EventType.Deleted, object := some p }
        with ⟨h1, heq⟩ | ⟨h1, h2, heq⟩ | ⟨h1, h2, heq⟩ <;>
        rw [heq] <;> dsimp only at h1 ⊢
      · exact ⟨hnames2, halt, fun hce => absurd hce h1⟩
      · have htr : trace
            { knownProjects := eraseKnown s.knownProjects n,
              queue := s.queue ++ [{ type := EventType.Deleted, object := some p }],
              outgoing := s.outgoing,
              removedCount := s.removedCount,
              cacheError := s.cacheError }
            = trace s ++ [{ type := EventType.Deleted, object := some p }] := by
          simp [trace]
        refine ⟨hnames2, ?_, ?_⟩
        · intro m
          by_cases hm : m = n
          · subst hm
            rw [htr, eventsFor_snoc_self m _ _ hevname]
            have hlast : lastType (eventsFor m (trace s)) ≠ some EventType.Deleted := by
              intro hc
              have := (hlink h1 m).2 hc
              rw [hk] at this
              cases this
            exact ⟨addedOrDeleted_snoc _ _ (halt m).1 rfl,
              alternates_snoc _ _ (halt m).2 hlast⟩
          · rw [htr, eventsFor_snoc_other m _ _
              (by rw [hevname]; intro hc; injection hc with hcc; exact hm hcc.symm)]
            exact halt m
        · intro hce m
          by_cases hm : m = n
          · subst hm
            rw [htr, eventsFor_snoc_self m _ _ hevname, lastType_snoc]
            constructor
            · intro hc
              injection hc with hc
              cases hc
            · intro hc
              exact lookupKnown_erase_self _ _
          · rw [htr, eventsFor_snoc_other m _ _
              (by rw [hevname]; intro hc; injection hc with hcc; exact hm hcc.symm),
              lookupKnown_erase_ne _ _ _ hm]
            exact hlink h1 m
      · exact ⟨hnames2, halt, fun hce => Option.noConfusion hce⟩

/-- The run loop's forwarding step preserves the emission invariant. -/
theorem wfState_drainOne (s : WatcherState) (h : wfState s) : wfState (drainOne s) := by
  obtain ⟨hnames, halt, hlink⟩ := h
  refine ⟨?_, ?_, ?_⟩
  · intro kv hkv
    rw [drainOne_knownProjects] at hkv
    exact hnames kv hkv
  · intro n
    rw [trace_drainOne]
    exact halt n
  · intro hce n
    rw [trace_drainOne, drainOne_knownProjects]
    rw [drainOne_cacheError] at hce
    exact hlink hce n

theorem wfState_run (w : userProjectWatcher) (s : WatcherState) (steps : List Step)
    (h : wfState s) : wfState (run w s steps) := by
  induction steps generalizing s with
  | nil => exact h
  | cons st rest ih =>
    cases st with
    | notify m u g => exact ih _ (wfState_gmc w s m u g h)
    | drain =>
      refine ih (step w s Step.drain) ?_
      exact wfState_drainOne s h

/-- C5: in every event sequence the watcher emits, restricted to any single
namespace, every event is an Added or a Deleted and the kinds strictly
alternate — no second Added before a Deleted and no two consecutive
Deleted. -/
theorem per_namespace_alternation (lr : Except String (List Nspace))
    (w : userProjectWatcher) (steps : List Step) (n : String) :
    addedOrDeleted (eventsFor n (trace (run w (NewUserProjectWatcher lr) steps))) = true ∧
    alternates (eventsFor n (trace (run w (NewUserProjectWatcher lr) steps))) = true :=
  (wfState_run w (NewUserProjectWatcher lr) steps (wfState_new lr)).2.1 n

end auth

namespace simple

/-! Definitions translated from plugins/route/allocation/simple/plugin.go. -/

/-- Lower-case letter or digit. -/
def isAlnumLower (c : Char) : Bool := c.isLower || c.isDigit

/-- An RFC 1123 DNS label over an explicit character list: non-empty, at most
63 characters, only lower-case alphanumerics and dashes, starting and ending
with an alphanumeric. -/
def isDNS1123Label (l : List Char) : Bool :=
  decide (1 ≤ l.length) && decide (l.length ≤ 63) &&
  l.all (fun c => isAlnumLower c || c == '-') &&
  (match l.head? with | some c => isAlnumLower c | none => false) &&
  (match l.getLast? with | some c => isAlnumLower c | none => false)

/-- Split a character list at every dot. -/
def splitLabels : List Char → List (List Char)
  | [] => [[]]
  | c :: rest =>
    if c = '.' then [] :: splitLabels rest
    else
      match splitLabels rest with
      | l :: ls => (c :: l) :: ls
      | [] => [[c]]

/-- Model of the external validator util.IsDNSSubdomain (a kubernetes library
function, not part of this repository): an RFC 1123 subdomain — at most 253
characters, dot-separated RFC 1123 labels. -/
def IsDNSSubdomain (s : String) : Bool :=
  decide (s.length ≤ 253) && (splitLabels s.toList).all isDNS1123Label

/-- Default DNS suffix to use if no configuration is passed to this plugin. -/
def defaultDNSSuffix : String := "v3.openshift.com"

/-- The simple unsharded allocation plugin; holds only the DNS suffix. -/
structure SimpleAllocationPlugin where
  DNSSuffix : String
deriving DecidableEq, Repr

/-- NewSimpleAllocationPlugin: an empty suffix falls back to the default,
then the suffix is validated as a DNS subdomain; on failure an error is
returned, otherwise the plugin carrying the suffix. -/
def NewSimpleAllocationPlugin (suffix : String) : Except String SimpleAllocationPlugin :=
  let suffix := if suffix.length = 0 then defaultDNSSuffix else suffix
  if !(IsDNSSubdomain suffix) then Except.error ("invalid DNS suffix: " ++ suffix)
  else Except.ok { DNSSuffix := suffix }

/-- A route: the fields GenerateHostname reads. -/
structure Route where
  ServiceName : String
  Namespace : String
deriving DecidableEq, Repr

/-- A router shard: shard name and DNS suffix. -/
structure RouterShard where
  ShardName : String
  DNSSuffix : String
deriving DecidableEq, Repr

/-- Allocate always returns the "global" shard carrying the plugin suffix
(and a nil error in the original). -/
def Allocate (p : SimpleAllocationPlugin) : RouterShard :=
  { ShardName := "global", DNSSuffix := p.DNSSuffix }

/-- GenerateHostname: uses the service name (or, when it is empty, a freshly
generated uuid string, passed here as the explicit argument `uuidName` since
it is produced by an external nondeterministic library), then joins it with
the namespace (when non-empty, via a dash) and the shard DNS suffix. -/
def GenerateHostname (uuidName : String) (route : Route) (shard : RouterShard) : String :=
  let name := if route.ServiceName.length = 0 then uuidName else route.ServiceName
  if route.Namespace.length ≤ 0 then
    name ++ "." ++ shard.DNSSuffix
  else
    name ++ "-" ++ route.Namespace ++ "." ++ shard.DNSSuffix

theorem string_length_eq_zero {s : String} (h : s.length = 0) : s = "" := by
  cases s with
  | mk data =>
    cases data with
    | nil => rfl
    | cons c cs => simp [String.length] at h

/-- C9: NewSimpleAllocationPlugin maps the empty string to a plugin carrying
the default suffix v3.openshift.com; a non-empty suffix yields an error
exactly when it is not a valid DNS subdomain, and otherwise a plugin carrying
that suffix. -/
theorem new_simple_allocation_plugin_spec :
    NewSimpleAllocationPlugin "" = Except.ok { DNSSuffix := defaultDNSSuffix } ∧
    ∀ s : String, s ≠ "" →
      NewSimpleAllocationPlugin s
        = (if IsDNSSubdomain s then Except.ok { DNSSuffix := s }
           else Except.error ("invalid DNS suffix: " ++ s)) := by
  constructor
  · rfl
  · intro s hs
    have hlen : ¬ s.length = 0 := fun hc => hs (string_length_eq_zero hc)
    unfold NewSimpleAllocationPlugin
    simp only [if_neg hlen]
    cases hd : IsDNSSubdomain s <;> simp [hd]

/-- C9 witness: the suffix "apps.example.com" is non-empty and a valid DNS
subdomain, so the constructor succeeds with it. -/
theorem new_simple_allocation_plugin_spec_witness :
    ("apps.example.com" : String) ≠ "" ∧
    NewSimpleAllocationPlugin "apps.example.com"
      = (if IsDNSSubdomain "apps.example.com"
         then Except.ok { DNSSuffix := "apps.example.com" }
         else Except.error ("invalid DNS suffix: " ++ "apps.example.com")) :=
  ⟨by decide, new_simple_allocation_plugin_spec.2 "apps.example.com" (by decide)⟩

/-- C10: for a route with a non-empty service name, the generated hostname is
ServiceName.DNSSuffix when the namespace is empty and
ServiceName-Namespace.DNSSuffix when it is not; in both cases the result ends
with a dot followed by the shard's DNS suffix. -/
theorem generate_hostname_spec (uuidName : String) (route : Route) (shard : RouterShard)
    (h : route.ServiceName ≠ "") :
    GenerateHostname uuidName route shard
      = (if route.Namespace = ""
         then route.ServiceName ++ "." ++ shard.DNSSuffix
         else route.ServiceName ++ "-" ++ route.Namespace ++ "." ++ shard.DNSSuffix) ∧
    ∃ p : String, GenerateHostname uuidName route shard = p ++ "." ++ shard.DNSSuffix := by
  have hsn : ¬ route.ServiceName.length = 0 := fun hc => h (string_length_eq_zero hc)
  unfold GenerateHostname
  simp only [if_neg hsn]
  by_cases hns : route.Namespace = ""
  · have hle : route.Namespace.length ≤ 0 := by rw [hns]; exact Nat.le_refl 0
    rw [if_pos hle, if_pos hns]
    exact ⟨rfl, ⟨route.ServiceName, rfl⟩⟩
  · have hgt : ¬ route.Namespace.length ≤ 0 := fun hc =>
      hns (string_length_eq_zero (Nat.le_zero.mp hc))
    rw [if_neg hgt, if_neg hns]
    exact ⟨rfl, ⟨route.ServiceName ++ "-" ++ route.Namespace, rfl⟩⟩

/-- C10 witness: the route service-a in namespace ns-a against the global
shard with suffix apps.example.com. -/
theorem generate_hostname_spec_witness :
    ({ ServiceName := "service-a", Namespace := "ns-a" } : Route).ServiceName ≠ "" ∧
    (GenerateHostname "ignored" { ServiceName := "service-a", Namespace := "ns-a" }
        { ShardName := "global", DNSSuffix := "apps.example.com" }
      = (if ("ns-a" : String) = ""
         then "service-a" ++ "." ++ "apps.example.com"
         else "service-a" ++ "-" ++ "ns-a" ++ "." ++ "apps.example.com") ∧
      ∃ p : String,
        GenerateHostname "ignored" { ServiceName := "service-a", Namespace := "ns-a" }
          { ShardName := "global", DNSSuffix := "apps.example.com" }
          = p ++ "." ++ "apps.example.com") :=
  ⟨by decide,
    generate_hostname_spec "ignored" { ServiceName := "service-a", Namespace := "ns-a" }
      { ShardName := "global", DNSSuffix := "apps.example.com" } (by decide)⟩

end simple
